import Mathlib

/-!
# Verification of the extension-packaging pipeline (`src/main.rs`)

Shallow embedding of the packaging pipeline: the registry model, the
diff engine (`changed_extension_ids`, `unpublished_extension_ids`), the
manifest loader (`read_extension_manifest`), the theme validator
(`validate_theme`) and the package builder (`package_extension`).

Filesystem reads, the TOML/JSON parsers and the JSON-schema checker are
external collaborators; they are modelled as explicit inputs (file
contents / parse results / a diagnostics function), and the control flow
of the Rust source is translated function by function.
-/

namespace Extensions
/-- Rust `struct ExtensionInfo { path: PathBuf, version: String }`:
one registry entry, mapping an extension to its source path and declared
version. -/
structure ExtensionInfo where
  path : String
  version : String
  deriving Repr, DecidableEq

/-- Rust `struct ExtensionsToml(IndexMap<ExtensionId, ExtensionInfo>)`:
the registry is an ordered map from extension ID to entry; embedded as an
association list in insertion order (an `IndexMap` never holds a key
twice, so well-formed registries have nodup keys). -/
abbrev Registry := List (String × ExtensionInfo)

/-- Rust `IndexMap::get`: lookup by key (first occurrence). -/
def registryGet (r : Registry) (id : String) : Option ExtensionInfo :=
  List.lookup id r

/-! ## Diff engine -/

/-- The loop body of `changed_extension_ids`: iterate over `current` in
order, look the ID up in the baseline registry (`origin/main`), skip the
entry when the baseline version equals the current version, otherwise
push the ID. `acc` is the `changed` vector being pushed to. -/
def changedLoop (baseline : Registry) : Registry → List String → List String
  | [], acc => acc
  | (id, info) :: rest, acc =>
    if (registryGet baseline id).map (fun i => i.version) == some info.version then
      changedLoop baseline rest acc
    else
      changedLoop baseline rest (acc ++ [id])

/-- Rust `changed_extension_ids`: the IDs of `current` whose version differs
from the baseline registry (the baseline is fetched by the external
version-control collaborator; here it is an explicit argument). -/
def changed_extension_ids (current baseline : Registry) : List String :=
  changedLoop baseline current []

/-- Rust `get_published_versions_by_extension_id`: the published-versions
collaborator as implemented in the source — it returns an empty map. -/
def get_published_versions_by_extension_id : List (String × List String) := []

/-- The loop body of `unpublished_extension_ids`: iterate over `current`;
when the published index has no entry for the ID, `continue`; otherwise
push the ID when the published version set `contains` the current
version. -/
def unpublishedLoop (published : List (String × List String)) :
    Registry → List String
  | [] => []
  | (id, info) :: rest =>
    match List.lookup id published with
    | none => unpublishedLoop published rest
    | some versions =>
      if versions.contains info.version then
        id :: unpublishedLoop published rest
      else
        unpublishedLoop published rest

/-- Rust `unpublished_extension_ids`: the selection as written in the source,
over the published index actually obtained from the collaborator. -/
def unpublished_extension_ids (current : Registry) : List String :=
  unpublishedLoop get_published_versions_by_extension_id current

/-- Modelled from the spec: the Unpublished selection as the spec words
it — an extension is unpublished iff the `published` index has no entry
for its ID, or has an entry whose version set does not contain the
current registry version. Stated for comparison with
`unpublishedLoop`, the selection found in the source. -/
def unpublishedSpec (published : List (String × List String))
    (current : Registry) : List String :=
  (current.filter fun e =>
    match List.lookup e.1 published with
    | none => true
    | some versions => !(versions.contains e.2.version)).map Prod.fst

/-- The Boolean the diff engine decides per entry: the baseline version
of this ID differs from (or is absent for) the current entry. -/
def changedPred (baseline : Registry) (e : String × ExtensionInfo) : Bool :=
  !((registryGet baseline e.1).map (fun i => i.version) == some e.2.version)

/-! ## Manifest model -/

/-- Rust `struct GrammarManifestEntry { repository, rev }`. -/
structure GrammarManifestEntry where
  repository : String
  rev : String
  deriving Repr, DecidableEq

/-- Rust `struct LanguageServerManifestEntry { name, language }`. -/
structure LanguageServerManifestEntry where
  name : String
  language : String
  deriving Repr, DecidableEq

/-- Rust `struct LibManifestEntry { path }`. -/
structure LibManifestEntry where
  path : String
  deriving Repr, DecidableEq

/-- Rust `struct ExtensionManifest`: the canonical extension metadata; the
ordered maps (`IndexMap`) are embedded as association lists in
declaration order, paths as strings. -/
structure ExtensionManifest where
  name : String
  version : String
  description : Option String
  repository : Option String
  authors : List String
  lib : Option LibManifestEntry
  themes : List String
  languages : List String
  grammars : List (String × GrammarManifestEntry)
  language_servers : List (String × LanguageServerManifestEntry)
  deriving Repr, DecidableEq

/-- Rust `enum ExtensionManifestFormat { Toml, Json }`. -/
inductive ExtensionManifestFormat where
  | toml
  | json
  deriving Repr, DecidableEq

/-! ## Manifest loader

`File::open` distinguishes a missing file from any other I/O failure;
a file's on-disk state is embedded as one of the three outcomes below.
The TOML/JSON deserializers are external (serde); they enter as
functions from file content to a parse result. -/

/-- Outcome of `File::open` + `read_to_string` on one path. -/
inductive OpenResult where
  | ok (content : String)
  | notFound
  | otherError (e : String)
  deriving Repr, DecidableEq

/-- The two candidate manifest files inside one extension directory. -/
structure ManifestDir where
  tomlFile : OpenResult
  jsonFile : OpenResult

/-- Rust `read_json_file`: open the file (any open/read error propagates,
including not-found) and deserialize its content. -/
def read_json_file (parse : String → Except String ExtensionManifest)
    (file : OpenResult) : Except String ExtensionManifest :=
  match file with
  | .ok content => parse content
  | .notFound => .error "NotFound"
  | .otherError e => .error e

/-- Rust `try_read_toml_file`: `Ok(None)` exactly when the open fails with
`ErrorKind::NotFound`; any other open error, and any parse error,
propagates as `Err`. -/
def try_read_toml_file (parse : String → Except String ExtensionManifest)
    (file : OpenResult) : Except String (Option ExtensionManifest) :=
  match file with
  | .notFound => .ok none
  | .otherError e => .error e
  | .ok content =>
    match parse content with
    | .error e => .error e
    | .ok m => .ok (some m)

/-- Rust `read_extension_manifest`: try `extension.toml` first; only when
`try_read_toml_file` reports not-found fall back to `extension.json`. -/
def read_extension_manifest (tomlParse jsonParse : String → Except String ExtensionManifest)
    (dir : ManifestDir) : Except String (ExtensionManifest × ExtensionManifestFormat) :=
  match try_read_toml_file tomlParse dir.tomlFile with
  | .error e => .error e
  | .ok (some m) => .ok (m, .toml)
  | .ok none =>
    match read_json_file jsonParse dir.jsonFile with
    | .error e => .error e
    | .ok m => .ok (m, .json)

/-! ## Theme validator -/

/-- A JSON document, the shape `serde_json::Value` takes once parsed. -/
inductive Json where
  | null
  | bool (b : Bool)
  | num (n : Int)
  | str (s : String)
  | arr (xs : List Json)
  | obj (fields : List (String × Json))

/-- Rust `validate_theme`: run the schema checker (valico over the embedded
`theme-family.json` schema — an external collaborator, entering as the
`check` function returning the list of schema-violation diagnostics) and
fail iff the diagnostics list is non-empty, carrying the whole list. -/
def validate_theme (check : Json → List String) (theme : Json) :
    Except (List String) Unit :=
  let errors := check theme
  if errors.isEmpty then .ok () else .error errors

/-! ## Package builder -/

/-- Split a file name at its last dot: `some (before, after)` when a dot
exists, `none` otherwise. -/
def splitLastDot : List Char → Option (List Char × List Char)
  | [] => none
  | c :: cs =>
    match splitLastDot cs with
    | some (b, a) => some (c :: b, a)
    | none => if c = '.' then some ([], cs) else none

/-- Rust `Path::with_extension` on a bare file name: the current
extension (the portion after the last dot, unless that dot is the
leading character) is replaced by `ext`. So `"demo-0.1.0"` with
`"tar.gz"` becomes `"demo-0.1.tar.gz"`. -/
def withExtensionName (name ext : String) : String :=
  let stem :=
    match splitLastDot name.data with
    | none => name.data
    | some (before, _after) => if before = [] then name.data else before
  if ext.isEmpty then ⟨stem⟩ else ⟨stem ++ ('.' :: ext.data)⟩

/-- The error message built for a version mismatch: the four `format!`
lines joined with `"\n"` (the second line is empty). -/
def mismatch_error_message (id name expected actual : String) : String :=
  "Incorrect version for extension " ++ id ++ " (" ++ name ++ ")" ++ "\n" ++ "\n" ++
    "Expected version: " ++ expected ++ "\n" ++ "Actual version: " ++ actual

/-- One entry of `read_dir` on the `themes` source directory.
`file_name().to_str()` yields `none` when the OS file name is not valid
UTF-8; `content` is what `read_json_file` on the entry's path yields. -/
structure ThemeEntry where
  fileName : Option String
  content : Except String Json

/-- Observable filesystem steps of the theme loop, in order: the
relaxed-JSON read of an entry, its schema validation, and the
byte-for-byte copy into `themes/` of the package directory. -/
inductive Action where
  | mkdirThemes
  | readJson (entry : ThemeEntry)
  | validateTheme (entry : ThemeEntry)
  | copyTheme (fileName : String)

/-- The `bail!`/`?` sites of `package_extension`; each constructor is
one anyhow error, carrying the data its message is formatted from. -/
inductive PkgError where
  | manifestError (e : String)
  | versionMismatch (message : String)
  | themeRead (e : String)
  | themeInvalid (errors : List String)

/-- What one successful `package_extension` run leaves behind: the
rewritten output manifest, the archive path it computed (file name,
relative to the per-build scratch directory), and the filesystem actions
it performed. The Rust function returns `Ok(())` — no archive path. -/
structure PackageSuccess where
  packageManifest : ExtensionManifest
  archiveName : String
  actions : List Action

/-- The per-extension environment `package_extension` reads: the result
of loading the manifest from the extension directory, the `themes`
source directory (`none` when `is_directory` is false), and the schema
checker. -/
structure PackageEnv where
  manifest : Except String (ExtensionManifest × ExtensionManifestFormat)
  themesDir : Option (List ThemeEntry)
  check : Json → List String

/-- The `while let Some(theme_entry) = read_dir.next_entry()` loop:
entries whose file name is not UTF-8 are skipped (`continue`); others
are read as relaxed JSON, validated, copied, and their package-relative
path `themes/<filename>` pushed onto the output manifest's `themes`. -/
def processThemes (check : Json → List String) :
    List ThemeEntry → Except PkgError (List String × List Action)
  | [] => .ok ([], [])
  | e :: rest =>
    match e.fileName with
    | none => processThemes check rest
    | some name =>
      match e.content with
      | .error err => .error (.themeRead err)
      | .ok theme =>
        match validate_theme check theme with
        | .error errs => .error (.themeInvalid errs)
        | .ok _ =>
          match processThemes check rest with
          | .error er => .error er
          | .ok (ts, acts) =>
            .ok (("themes/" ++ name) :: ts,
              .readJson e :: .validateTheme e :: .copyTheme name :: acts)

/-- Rust `package_extension`: load the manifest, bail on a version mismatch,
build the output manifest with empty asset lists, compute the archive
name `join("{id}-{version}").with_extension("tar.gz")`, then walk the
`themes` directory. The function performs no serialization of the
output manifest, no compression, and returns no path. -/
def package_extension (extension_id : String) (env : PackageEnv)
    (extension_version : String) : Except PkgError PackageSuccess :=
  match env.manifest with
  | .error e => .error (.manifestError e)
  | .ok (metadata, _format) =>
    if metadata.version ≠ extension_version then
      .error (.versionMismatch
        (mismatch_error_message extension_id metadata.name
          extension_version metadata.version))
    else
      let package_manifest : ExtensionManifest :=
        { name := metadata.name
          version := metadata.version
          description := metadata.description
          repository := metadata.repository
          authors := metadata.authors
          lib := none
          themes := []
          languages := []
          grammars := []
          language_servers := [] }
      let archive_name :=
        withExtensionName (extension_id ++ "-" ++ package_manifest.version) "tar.gz"
      match env.themesDir with
      | none =>
        .ok { packageManifest := package_manifest
              archiveName := archive_name
              actions := [] }
      | some entries =>
        match processThemes env.check entries with
        | .error e => .error e
        | .ok (ts, acts) =>
          .ok { packageManifest := { package_manifest with themes := ts }
                archiveName := archive_name
                actions := .mkdirThemes :: acts }

/-! ## Main loop -/

/-- The `for extension_id in extension_ids` loop of `main`: an ID with
no registry entry is reported and skipped; otherwise `package_extension`
runs and its error propagates with `?`, ending the run. Returns the
IDs on which `package_extension` was invoked, and the propagated error
if any. -/
def run_loop (envOf : String → PackageEnv) (reg : Registry) :
    List String → List String × Option PkgError
  | [] => ([], none)
  | id :: rest =>
    match registryGet reg id with
    | none => run_loop envOf reg rest
    | some info =>
      match package_extension id (envOf id) info.version with
      | .error e => ([id], some e)
      | .ok _ =>
        let (attempted, res) := run_loop envOf reg rest
        (id :: attempted, res)

/-! ## Shared concrete fixtures -/

/-- A well-formed manifest used as a concrete fixture. -/
def demoManifest : ExtensionManifest :=
  { name := "Demo"
    version := "0.1.0"
    description := none
    repository := none
    authors := []
    lib := none
    themes := []
    languages := []
    grammars := []
    language_servers := [] }

/-- A schema checker that reports no diagnostics. -/
def noDiagnostics : Json → List String := fun _ => []

/-- A one-entry registry whose extension has no published history. -/
def c1Current : Registry := [("my-ext", ⟨"extensions/my-ext", "1.0.0"⟩)]

/-- A published index that already contains the current version. -/
def c1Published : List (String × List String) := [("my-ext", ["1.0.0"])]

/-- Environment for a build of `demo` with no themes directory. -/
def c2Env : PackageEnv :=
  { manifest := .ok (demoManifest, .toml)
    themesDir := none
    check := noDiagnostics }

/-- A two-entry registry with distinct keys. -/
def c9Registry : Registry := [("a", ⟨"ext/a", "1.0.0"⟩), ("b", ⟨"ext/b", "2.0.0"⟩)]

/-- Registry for the batch-failure scenario: `a` declares version
`2.0.0`, `b` declares `1.0.0`. -/
def c3Registry : Registry := [("a", ⟨"ext/a", "2.0.0"⟩), ("b", ⟨"ext/b", "1.0.0"⟩)]

/-- Manifest on disk for extension `a` — its version `1.0.0` mismatches
the registry's `2.0.0`, so building `a` fails. -/
def c3ManifestA : ExtensionManifest :=
  { demoManifest with name := "A", version := "1.0.0" }

/-- Manifest on disk for extension `b` — consistent with the registry. -/
def c3ManifestB : ExtensionManifest :=
  { demoManifest with name := "B", version := "1.0.0" }

/-- Per-extension environments for the batch-failure scenario. -/
def c3EnvOf : String → PackageEnv := fun id =>
  if id = "a" then
    { manifest := .ok (c3ManifestA, .toml), themesDir := none, check := noDiagnostics }
  else
    { manifest := .ok (c3ManifestB, .toml), themesDir := none, check := noDiagnostics }

/-- Environment whose manifest declares version `1.2.0`. -/
def c4Env : PackageEnv :=
  { manifest := .ok ({ demoManifest with version := "1.2.0" }, .toml)
    themesDir := none
    check := noDiagnostics }

/-- A TOML parser fixture: parses the content `"toml-good"` and rejects
everything else. -/
def c6TomlParse : String → Except String ExtensionManifest :=
  fun c => if c = "toml-good" then .ok demoManifest else .error "toml parse error"

/-- A JSON parser fixture that would yield a different manifest. -/
def c6JsonParse : String → Except String ExtensionManifest :=
  fun _ => .ok { demoManifest with name := "FromJson" }

/-- An extension directory where both manifest files are present. -/
def c6Dir : ManifestDir := { tomlFile := .ok "toml-good", jsonFile := .ok "{}" }

/-- Whether the theme loop passes over this directory entry without
failing: its file name is not UTF-8 (skipped), or its content reads,
parses and validates cleanly. -/
def entryPassesB (check : Json → List String) (e : ThemeEntry) : Bool :=
  match e.fileName with
  | none => true
  | some _ =>
    match e.content with
    | .error _ => false
    | .ok t => (check t).isEmpty

/-- A theme entry that validates cleanly under `c7Check`. -/
def c7GoodEntry : ThemeEntry := { fileName := some "light.json", content := .ok .null }

/-- A theme entry whose document fails validation under `c7Check`. -/
def c7BadEntry : ThemeEntry := { fileName := some "bad.json", content := .ok (.str "x") }

/-- A schema checker fixture: the null document conforms, everything
else produces two diagnostics. -/
def c7Check : Json → List String := fun j =>
  match j with
  | .null => []
  | _ => ["themes: property is required", "name: property is required"]

/-- A Unix path is absolute iff it starts with the separator. -/
def isAbsolutePath (s : String) : Bool := s.data.head? == some '/'

/-- A well-formed theme directory entry. -/
def c8Entry : ThemeEntry := { fileName := some "t.json", content := .ok .null }

/-- Environment with a themes directory holding one valid theme. -/
def c8Env : PackageEnv :=
  { manifest := .ok (demoManifest, .toml)
    themesDir := some [c8Entry]
    check := noDiagnostics }

/-- The successful build result on `c8Env`. -/
def c8Res : PackageSuccess :=
  { packageManifest := { demoManifest with themes := ["themes/t.json"] }
    archiveName := "demo-0.1.tar.gz"
    actions := [.mkdirThemes, .readJson c8Entry, .validateTheme c8Entry,
      .copyTheme "t.json"] }

/-- A valid UTF-8-named theme entry for the C10 witness. -/
def c10Good : ThemeEntry := { fileName := some "light.json", content := .ok .null }

/-- A directory entry whose OS file name is not valid UTF-8; its
`content` field is irrelevant since the file is never read. -/
def c10Bad : ThemeEntry := { fileName := none, content := .error "unreadable" }

/-! ## Theorems -/

theorem changedLoop_eq (baseline : Registry) (l : Registry) (acc : List String) :
    changedLoop baseline l acc = acc ++ (l.filter (changedPred baseline)).map Prod.fst := by
  induction l generalizing acc with
  | nil => simp [changedLoop]
  | cons e rest ih =>
    obtain ⟨id, info⟩ := e
    by_cases h : (registryGet baseline id).map (fun i => i.version) = some info.version
    · simp [changedLoop, h, changedPred, ih]
    · simp only [changedLoop, changedPred]
      rw [if_neg (by simpa using h)]
      simp [ih, h, changedPred]

theorem lookup_self_of_nodup (A : Registry) (hA : (A.map Prod.fst).Nodup)
    (e : String × ExtensionInfo) (he : e ∈ A) :
    registryGet A e.1 = some e.2 := by
  induction A with
  | nil => cases he
  | cons a rest ih =>
    simp only [List.map_cons, List.nodup_cons] at hA
    rcases List.mem_cons.mp he with rfl | hmem
    · simp [registryGet, List.lookup]
    · have hne : e.1 ≠ a.1 := by
        intro hEq
        exact hA.1 (hEq ▸ List.mem_map_of_mem Prod.fst hmem)
      have hb : (e.1 == a.1) = false := by simpa using hne
      simp only [registryGet, List.lookup, hb]
      exact ih hA.2 hmem

/-- C1: the claim says an extension ID is selected as unpublished iff the
published index has no entry for it, or its entry lacks the current
version. The code does the opposite: with no published entry the ID is
skipped (the source's published index is in fact always empty, so the
selection is always empty), and with an entry that already contains the
current version the ID is selected. At the concrete registry `c1Current`
the source selection and the spec's selection disagree in both
directions. -/
theorem unpublished_selection_inverts_spec :
    unpublished_extension_ids c1Current = [] ∧
    unpublishedSpec [] c1Current = ["my-ext"] ∧
    unpublishedLoop c1Published c1Current = ["my-ext"] ∧
    unpublishedSpec c1Published c1Current = [] := by
  decide

/-- C2: the claim says a successful build serializes the output manifest,
compresses the scratch area into an archive named exactly
`{id}-{version}.tar.gz`, and returns that archive's path. Evaluating the
source on a succeeding input: the computed archive name is
`demo-0.1.tar.gz` — `Path::with_extension` swallows the version's last
dot-component, so it is not `demo-0.1.0.tar.gz` — and the build performs
no filesystem action at all (no manifest write, no compression) and
returns unit rather than a path. -/
theorem package_extension_demo_no_archive :
    package_extension "demo" c2Env "0.1.0" =
      .ok { packageManifest := demoManifest
            archiveName := "demo-0.1.tar.gz"
            actions := [] } ∧
    withExtensionName ("demo" ++ "-" ++ "0.1.0") "tar.gz" = "demo-0.1.tar.gz" ∧
    "demo-0.1.tar.gz" ≠ "demo-0.1.0.tar.gz" := by
  refine ⟨rfl, by decide, by decide⟩

/-- C5: `changed_extension_ids` returns exactly the IDs of `current`
whose version differs from the same ID's version in `baseline`, an ID
absent from `baseline` counting as changed, listed in `current`'s
iteration order (it is the in-order filter of `current` by that
predicate). -/
theorem changed_extension_ids_spec (current baseline : Registry) :
    changed_extension_ids current baseline =
      (current.filter (changedPred baseline)).map Prod.fst ∧
    ∀ id, id ∈ changed_extension_ids current baseline ↔
      ∃ info, (id, info) ∈ current ∧
        (registryGet baseline id).map (fun i => i.version) ≠ some info.version := by
  have hq := changedLoop_eq baseline current []
  constructor
  · simpa [changed_extension_ids] using hq
  · intro id
    rw [changed_extension_ids, hq]
    simp only [List.nil_append, List.mem_map, List.mem_filter]
    constructor
    · rintro ⟨⟨i, info⟩, ⟨hmem, hpred⟩, rfl⟩
      refine ⟨info, hmem, ?_⟩
      simpa [changedPred] using hpred
    · rintro ⟨info, hmem, hne⟩
      exact ⟨(id, info), ⟨hmem, by simpa [changedPred] using hne⟩, rfl⟩

/-- C9: diffing a registry against an identical baseline selects
nothing: for a well-formed registry (nodup keys, as an `IndexMap`
guarantees), `changed_extension_ids A A = []`. -/
theorem changed_self_empty (A : Registry) (h : (A.map Prod.fst).Nodup) :
    changed_extension_ids A A = [] := by
  have hf : A.filter (changedPred A) = [] := by
    rw [List.filter_eq_nil_iff]
    intro e he
    simp [changedPred, lookup_self_of_nodup A h e he]
  rw [changed_extension_ids, changedLoop_eq, hf]
  simp

/-- Witness for C9 at a concrete two-entry registry. -/
theorem changed_self_empty_witness :
    changed_extension_ids c9Registry c9Registry = [] :=
  changed_self_empty c9Registry (by decide)

/-- C3, counterexample: with selected IDs `[a, b]`, both present in the
registry, the build of `a` fails (version mismatch) — and the run ends
with that error having attempted only `a`; `b` is never built, contrary
to the claim that the run continues with the next extension ID. -/
theorem run_aborts_on_package_failure :
    (run_loop c3EnvOf c3Registry ["a", "b"]).1 = ["a"] ∧
    (run_loop c3EnvOf c3Registry ["a", "b"]).2 =
      some (.versionMismatch (mismatch_error_message "a" "A" "2.0.0" "1.0.0")) ∧
    "b" ∉ (run_loop c3EnvOf c3Registry ["a", "b"]).1 := by
  refine ⟨rfl, rfl, ?_⟩
  intro hmem
  rw [show (run_loop c3EnvOf c3Registry ["a", "b"]).1 = ["a"] from rfl] at hmem
  simp at hmem

/-- C3, amended: a failure while building one extension's package is
fatal to the whole run — `main` propagates it with `?`, so every ID
after the failing one goes unprocessed; the only per-ID condition the
run skips over is a selected ID with no registry entry. Formally: if
every earlier selected ID either has no registry entry or builds
successfully, and `id`'s build fails with `e`, the run stops at `id`
with error `e`, having attempted exactly the earlier registered IDs and
`id`, and none of the IDs after it. -/
theorem run_stops_at_first_package_failure
    (envOf : String → PackageEnv) (reg : Registry) (pre post : List String)
    (id : String) (info : ExtensionInfo) (e : PkgError)
    (hpre : ∀ j ∈ pre, ∀ i, registryGet reg j = some i →
      (package_extension j (envOf j) i.version).isOk)
    (hid : registryGet reg id = some info)
    (hfail : package_extension id (envOf id) info.version = .error e) :
    run_loop envOf reg (pre ++ id :: post) =
      ((pre.filter fun j => (registryGet reg j).isSome) ++ [id], some e) := by
  induction pre with
  | nil => simp [run_loop, hid, hfail]
  | cons j rest ih =>
    have hrest : ∀ j' ∈ rest, ∀ i, registryGet reg j' = some i →
        (package_extension j' (envOf j') i.version).isOk :=
      fun j' hj' => hpre j' (by simp [hj'])
    cases hreg : registryGet reg j with
    | none =>
      simpa [run_loop, hreg] using ih hrest
    | some i =>
      have hok := hpre j (by simp) i hreg
      cases hpkg : package_extension j (envOf j) i.version with
      | error e' => rw [hpkg] at hok; simp [Except.isOk, Except.toBool] at hok
      | ok u =>
        simp only [List.cons_append, run_loop, hreg, hpkg,
          List.filter_cons, Option.isSome_some, if_true]
        simp [ih hrest]

/-- Witness for the amended C3 at the concrete batch `[a, b]`. -/
theorem run_stops_at_first_package_failure_witness :
    run_loop c3EnvOf c3Registry ([] ++ "a" :: ["b"]) =
      (([] : List String).filter (fun j => (registryGet c3Registry j).isSome) ++ ["a"],
        some (.versionMismatch (mismatch_error_message "a" "A" "2.0.0" "1.0.0"))) :=
  run_stops_at_first_package_failure c3EnvOf c3Registry [] ["b"] "a"
    ⟨"ext/a", "2.0.0"⟩ _ (by intro j hj; simp at hj) rfl rfl

/-- C4: when the loaded manifest's version differs from the
registry-declared version, `package_extension` fails — no success value,
hence no archive — with the version-mismatch error whose message embeds
the extension ID, the manifest's `name`, the expected (registry) version
and the actual (manifest) version, each as a literal substring. -/
theorem package_extension_version_mismatch
    (id version : String) (env : PackageEnv) (m : ExtensionManifest)
    (fmt : ExtensionManifestFormat)
    (hm : env.manifest = .ok (m, fmt)) (hv : m.version ≠ version) :
    package_extension id env version =
      .error (.versionMismatch (mismatch_error_message id m.name version m.version)) ∧
    (∃ p s, mismatch_error_message id m.name version m.version = p ++ id ++ s) ∧
    (∃ p s, mismatch_error_message id m.name version m.version = p ++ m.name ++ s) ∧
    (∃ p s, mismatch_error_message id m.name version m.version = p ++ version ++ s) ∧
    (∃ p s, mismatch_error_message id m.name version m.version = p ++ m.version ++ s) ∧
    ∀ res, package_extension id env version ≠ .ok res := by
  have h1 : package_extension id env version =
      .error (.versionMismatch (mismatch_error_message id m.name version m.version)) := by
    simp [package_extension, hm, hv]
  refine ⟨h1, ?_, ?_, ?_, ?_, ?_⟩
  · exact ⟨"Incorrect version for extension ",
      " (" ++ m.name ++ ")" ++ "\n" ++ "\n" ++ "Expected version: " ++ version ++
        "\n" ++ "Actual version: " ++ m.version,
      by simp [mismatch_error_message, String.append_assoc]⟩
  · exact ⟨"Incorrect version for extension " ++ id ++ " (",
      ")" ++ "\n" ++ "\n" ++ "Expected version: " ++ version ++
        "\n" ++ "Actual version: " ++ m.version,
      by simp [mismatch_error_message, String.append_assoc]⟩
  · exact ⟨"Incorrect version for extension " ++ id ++ " (" ++ m.name ++ ")" ++
        "\n" ++ "\n" ++ "Expected version: ",
      "\n" ++ "Actual version: " ++ m.version,
      by simp [mismatch_error_message, String.append_assoc]⟩
  · exact ⟨"Incorrect version for extension " ++ id ++ " (" ++ m.name ++ ")" ++
        "\n" ++ "\n" ++ "Expected version: " ++ version ++ "\n" ++ "Actual version: ",
      "",
      by simp [mismatch_error_message, String.append_assoc]⟩
  · intro res hres
    rw [h1] at hres
    exact Except.noConfusion hres

/-- Witness for C4: a manifest declaring `1.2.0` packaged against a
registry entry declaring `1.3.0`. -/
theorem package_extension_version_mismatch_witness :
    package_extension "demo" c4Env "1.3.0" =
      .error (.versionMismatch (mismatch_error_message "demo" "Demo" "1.3.0" "1.2.0")) :=
  (package_extension_version_mismatch "demo" "1.3.0" c4Env
    { demoManifest with version := "1.2.0" } .toml rfl (by decide)).1

/-- C6: the manifest loader prefers `extension.toml` — when it opens and
parses, the result is the TOML manifest no matter what `extension.json`
holds; the JSON file is consulted exactly when opening the TOML file
reports not-found; and a TOML file that opens but fails to parse (or
fails to open for any other reason) fails the load with that diagnostic
instead of falling through to the JSON form. -/
theorem read_extension_manifest_priority
    (tp jp : String → Except String ExtensionManifest) (dir : ManifestDir) :
    (∀ c m, dir.tomlFile = .ok c → tp c = .ok m →
      read_extension_manifest tp jp dir = .ok (m, .toml)) ∧
    (dir.tomlFile = .notFound →
      read_extension_manifest tp jp dir =
        (read_json_file jp dir.jsonFile).map (fun m => (m, .json))) ∧
    (∀ c e, dir.tomlFile = .ok c → tp c = .error e →
      read_extension_manifest tp jp dir = .error e) ∧
    (∀ e, dir.tomlFile = .otherError e →
      read_extension_manifest tp jp dir = .error e) := by
  refine ⟨?_, ?_, ?_, ?_⟩
  · intro c m hc hp
    simp [read_extension_manifest, try_read_toml_file, hc, hp]
  · intro hc
    simp only [read_extension_manifest, try_read_toml_file, hc]
    cases read_json_file jp dir.jsonFile <;> simp [Except.map]
  · intro c e hc hp
    simp [read_extension_manifest, try_read_toml_file, hc, hp]
  · intro e hc
    simp [read_extension_manifest, try_read_toml_file, hc]

/-- Witness for C6: with both files present and the TOML parsing, the
loader returns the TOML manifest. -/
theorem read_extension_manifest_priority_witness :
    read_extension_manifest c6TomlParse c6JsonParse c6Dir = .ok (demoManifest, .toml) :=
  (read_extension_manifest_priority c6TomlParse c6JsonParse c6Dir).1
    "toml-good" demoManifest rfl (by simp [c6TomlParse])

theorem processThemes_error_of_invalid (check : Json → List String)
    (pre post : List ThemeEntry) (e : ThemeEntry) (name : String) (theme : Json)
    (hname : e.fileName = some name) (hcontent : e.content = .ok theme)
    (herrs : check theme ≠ [])
    (hpre : ∀ x ∈ pre, entryPassesB check x = true) :
    processThemes check (pre ++ e :: post) = .error (.themeInvalid (check theme)) := by
  have hempty : (check theme).isEmpty = false := by
    simpa [List.isEmpty_iff] using herrs
  induction pre with
  | nil =>
    simp [processThemes, hname, hcontent, validate_theme, hempty]
  | cons x rest ih =>
    have hx := hpre x (by simp)
    have hrest : ∀ y ∈ rest, entryPassesB check y = true :=
      fun y hy => hpre y (by simp [hy])
    unfold entryPassesB at hx
    cases hfn : x.fileName with
    | none =>
      rw [List.cons_append]
      simp only [processThemes, hfn]
      exact ih hrest
    | some n =>
      rw [hfn] at hx
      cases hc : x.content with
      | error err => rw [hc] at hx; simp at hx
      | ok t =>
        rw [hc] at hx
        simp only at hx
        have ht : check t = [] := by simpa [List.isEmpty_iff] using hx
        rw [List.cons_append]
        simp only [processThemes, hfn, hc, validate_theme, ht]
        simp [ih hrest]

/-- C7: a theme file that reads and parses but fails schema validation
aborts the whole package build for its extension — provided the entries
before it pass, `package_extension` returns the `InvalidTheme` error and
no success value — and the error carries the checker's entire
diagnostics list, not just its first element. -/
theorem invalid_theme_aborts_build
    (id v : String) (m : ExtensionManifest) (fmt : ExtensionManifestFormat)
    (check : Json → List String) (pre post : List ThemeEntry) (e : ThemeEntry)
    (name : String) (theme : Json)
    (hv : m.version = v)
    (hname : e.fileName = some name) (hcontent : e.content = .ok theme)
    (herrs : check theme ≠ [])
    (hpre : ∀ x ∈ pre, entryPassesB check x = true) :
    package_extension id ⟨.ok (m, fmt), some (pre ++ e :: post), check⟩ v =
      .error (.themeInvalid (check theme)) ∧
    ∀ res, package_extension id ⟨.ok (m, fmt), some (pre ++ e :: post), check⟩ v ≠
      .ok res := by
  have hp := processThemes_error_of_invalid check pre post e name theme
    hname hcontent herrs hpre
  have h1 : package_extension id ⟨.ok (m, fmt), some (pre ++ e :: post), check⟩ v =
      .error (.themeInvalid (check theme)) := by
    simp [package_extension, hv, hp]
  exact ⟨h1, fun res hres => Except.noConfusion (h1 ▸ hres)⟩

/-- Witness for C7: the second theme file fails validation and the whole
build errors with both diagnostics. -/
theorem invalid_theme_aborts_build_witness :
    package_extension "demo"
        ⟨.ok (demoManifest, .toml), some ([c7GoodEntry] ++ c7BadEntry :: []), c7Check⟩
        "0.1.0" =
      .error (.themeInvalid (c7Check (.str "x"))) :=
  (invalid_theme_aborts_build "demo" "0.1.0" demoManifest .toml c7Check
    [c7GoodEntry] [] c7BadEntry "bad.json" (.str "x")
    rfl rfl rfl (by decide) (by decide)).1

theorem themes_prefixed_not_absolute (name : String) :
    isAbsolutePath ("themes/" ++ name) = false := by
  obtain ⟨l⟩ := name
  rfl

theorem processThemes_themes_shape (check : Json → List String)
    (entries : List ThemeEntry) (ts : List String) (acts : List Action)
    (h : processThemes check entries = .ok (ts, acts)) :
    ∀ p ∈ ts, ∃ name entry, entry ∈ entries ∧ entry.fileName = some name ∧
      p = "themes/" ++ name := by
  induction entries generalizing ts acts with
  | nil =>
    simp only [processThemes, Except.ok.injEq, Prod.mk.injEq] at h
    simp [← h.1]
  | cons e rest ih =>
    cases hfn : e.fileName with
    | none =>
      simp only [processThemes, hfn] at h
      intro p hp
      obtain ⟨name, entry, hmem, h1, h2⟩ := ih ts acts h p hp
      exact ⟨name, entry, by simp [hmem], h1, h2⟩
    | some name =>
      simp only [processThemes, hfn] at h
      cases hc : e.content with
      | error err => rw [hc] at h; simp at h
      | ok theme =>
        simp only [hc] at h
        cases hv : validate_theme check theme with
        | error errs => rw [hv] at h; simp at h
        | ok u =>
          simp only [hv] at h
          cases hrest : processThemes check rest with
          | error er => rw [hrest] at h; simp at h
          | ok pr =>
            obtain ⟨ts', acts'⟩ := pr
            simp only [hrest, Except.ok.injEq, Prod.mk.injEq] at h
            intro p hp
            rw [← h.1] at hp
            rcases List.mem_cons.mp hp with rfl | hp'
            · exact ⟨name, e, by simp, hfn, rfl⟩
            · obtain ⟨n', ent, hm, h1, h2⟩ := ih ts' acts' hrest p hp'
              exact ⟨n', ent, by simp [hm], h1, h2⟩

/-- C8: every path a successful build records in the output manifest's
`themes` list is `themes/<filename>` for the file name of some entry of
the extension's themes directory — a package-relative path rooted at the
package top level, never an absolute path. -/
theorem theme_paths_package_relative
    (id v : String) (env : PackageEnv) (res : PackageSuccess)
    (h : package_extension id env v = .ok res) :
    ∀ p ∈ res.packageManifest.themes, ∃ name entries entry,
      env.themesDir = some entries ∧ entry ∈ entries ∧ entry.fileName = some name ∧
      p = "themes/" ++ name ∧ isAbsolutePath p = false := by
  intro p hp
  simp only [package_extension] at h
  cases hm : env.manifest with
  | error e => rw [hm] at h; exact absurd h (by simp)
  | ok pr =>
    obtain ⟨m, fmt⟩ := pr
    simp only [hm] at h
    by_cases hv : m.version ≠ v
    · rw [if_pos hv] at h; exact absurd h (by simp)
    · rw [if_neg hv] at h
      cases hd : env.themesDir with
      | none =>
        simp only [hd, Except.ok.injEq] at h
        rw [← h] at hp
        simp at hp
      | some entries =>
        simp only [hd] at h
        cases hpt : processThemes env.check entries with
        | error e => rw [hpt] at h; exact absurd h (by simp)
        | ok pr2 =>
          obtain ⟨ts, acts⟩ := pr2
          simp only [hpt, Except.ok.injEq] at h
          rw [← h] at hp
          simp only at hp
          obtain ⟨name, entry, hmem, hfn, rfl⟩ :=
            processThemes_themes_shape env.check entries ts acts hpt p hp
          exact ⟨name, entries, entry, rfl, hmem, hfn, rfl,
            themes_prefixed_not_absolute name⟩

/-- Witness for C8: the single recorded path `themes/t.json` is the
`themes/`-rooted relative path of the directory entry's file name. -/
theorem theme_paths_package_relative_witness :
    ∃ name entries entry, c8Env.themesDir = some entries ∧ entry ∈ entries ∧
      entry.fileName = some name ∧ ("themes/t.json" : String) = "themes/" ++ name ∧
      isAbsolutePath "themes/t.json" = false :=
  theme_paths_package_relative "demo" "0.1.0" c8Env c8Res rfl
    "themes/t.json" (by simp [c8Res])

theorem processThemes_skip_non_utf8 (check : Json → List String)
    (pre post : List ThemeEntry) (bad : ThemeEntry) (hbad : bad.fileName = none) :
    processThemes check (pre ++ bad :: post) = processThemes check (pre ++ post) := by
  induction pre with
  | nil => simp only [List.nil_append, processThemes, hbad]
  | cons e rest ih =>
    rw [List.cons_append, List.cons_append]
    cases hfn : e.fileName with
    | none => simp only [processThemes, hfn]; exact ih
    | some n =>
      cases hc : e.content with
      | error err => simp [processThemes, hfn, hc]
      | ok t =>
        cases hvt : validate_theme check t with
        | error errs => simp [processThemes, hfn, hc, hvt]
        | ok u => simp [processThemes, hfn, hc, hvt, ih]

/-- C10: a themes-directory entry whose file name is not valid UTF-8 is
silently skipped — the build behaves exactly as if the entry were not
there: it is not read, validated or copied, no path is recorded, and the
build does not fail because of it. -/
theorem non_utf8_theme_entry_skipped
    (id v : String) (mres : Except String (ExtensionManifest × ExtensionManifestFormat))
    (check : Json → List String) (pre post : List ThemeEntry) (bad : ThemeEntry)
    (hbad : bad.fileName = none) :
    package_extension id ⟨mres, some (pre ++ bad :: post), check⟩ v =
      package_extension id ⟨mres, some (pre ++ post), check⟩ v := by
  cases mres with
  | error e => rfl
  | ok pr =>
    obtain ⟨m, fmt⟩ := pr
    by_cases hv : m.version ≠ v
    · simp [package_extension, hv]
    · simp only [package_extension, if_neg hv]
      rw [processThemes_skip_non_utf8 check pre post bad hbad]

/-- Witness for C10: inserting the non-UTF-8 entry changes nothing. -/
theorem non_utf8_theme_entry_skipped_witness :
    package_extension "demo"
        ⟨.ok (demoManifest, .toml), some ([c10Good] ++ c10Bad :: []), noDiagnostics⟩
        "0.1.0" =
      package_extension "demo"
        ⟨.ok (demoManifest, .toml), some ([c10Good] ++ []), noDiagnostics⟩
        "0.1.0" :=
  non_utf8_theme_entry_skipped "demo" "0.1.0" (.ok (demoManifest, .toml))
    noDiagnostics [c10Good] [] c10Bad rfl

end Extensions
